import Mathlib

/-!
Shallow embedding of the inference-to-geometry pipeline of
src/cloud/main.py (pupil and iris segmentation service).

External collaborators of the pipeline (cv2.imdecode, cv2.resize, the
TensorFlow model, cv2.findContours, cv2.minEnclosingCircle) are opaque to
the repository and enter the embedding as function parameters. Everything
the repository itself computes — binarization, largest-contour selection,
polygon moments and enclosed area (the documented semantics of
cv2.moments and cv2.contourArea on a point polygon), the effective
radius, coordinate rescaling, confidence aggregation and the ratio
assembly — is defined below following main.py line by line. Machine
floats are modelled exactly: rational arithmetic for the computable
parts, and real numbers where the code takes a square root
(np.sqrt(area / np.pi), main.py line 161). Wall-clock timing
(inference_ms) and the model_version constant are outside the embedding.
-/

namespace PupilSeg

/-- A contour as returned by cv2.findContours: a polygon given by a list
of integer pixel points (x, y). -/
abbrev Contour := List (ℤ × ℤ)

/-- Per-pixel class probabilities over (background, iris, pupil), shape
256 x 256 x 3 (main.py line 196, `pred`). -/
abbrev ProbMap := Fin 256 → Fin 256 → Fin 3 → ℚ

/-- Per-pixel predicted class ids (main.py line 199, `pred_mask`). -/
abbrev Mask := Fin 256 → Fin 256 → Fin 3

/-- A binarized mask (main.py line 141, `binary`). -/
abbrev Bin := Fin 256 → Fin 256 → Bool

/-- The resized 256 x 256 x 3 image with byte intensities
(main.py line 188, `resized`). -/
abbrev RawTensor := Fin 256 → Fin 256 → Fin 3 → ℕ

/-- The normalized tensor fed to the model (main.py line 189,
`normalized`). -/
abbrev NormTensor := Fin 256 → Fin 256 → Fin 3 → ℚ

/-- A decoded image as produced by cv2.imdecode: height, width and a
pixel function returning a channel triple (main.py line 180, `img`). -/
structure Image where
  height : ℕ
  width : ℕ
  pix : ℕ → ℕ → ℕ × ℕ × ℕ

/-- Channel-order conversion BGR to RGB (main.py line 184,
cv2.cvtColor with COLOR_BGR2RGB); the shape is unchanged. -/
def cvtColor (img : Image) : Image :=
  ⟨img.height, img.width, fun i j =>
    ((img.pix i j).2.2, (img.pix i j).2.1, (img.pix i j).1)⟩

/-- Intensity normalization: divide byte values by 255
(main.py line 189). -/
def normalize (t : RawTensor) : NormTensor :=
  fun i j k => (t i j k : ℚ) / 255

/-- np.argmax over the last axis for a 3-vector: the smallest index
attaining the maximum (main.py line 199). -/
def argmax3 (v : Fin 3 → ℚ) : Fin 3 :=
  if v 1 ≤ v 0 ∧ v 2 ≤ v 0 then 0
  else if v 2 ≤ v 1 then 1
  else 2

/-- The predicted class mask: per-pixel argmax of the probability map
(main.py line 199). -/
def predMask (pred : ProbMap) : Mask :=
  fun i j => argmax3 (pred i j)

/-- Binarization of the class mask against one class id
(main.py line 141). -/
def binarize (mask : Mask) (class_id : Fin 3) : Bin :=
  fun i j => decide (mask i j = class_id)

/-- Python round(x, n): round half to even at n decimal places,
modelled exactly on the rationals. -/
def pyRound (n : ℕ) (x : ℚ) : ℚ :=
  let m : ℚ := (10 : ℚ) ^ n
  let y := x * m
  let f : ℤ := ⌊y⌋
  let k : ℤ :=
    if y - f < 1 / 2 then f
    else if 1 / 2 < y - f then f + 1
    else if f % 2 = 0 then f else f + 1
  (k : ℚ) / m

/-- Python round(x, n) on the reals (used where the rounded value is a
quotient of square roots, main.py line 227). -/
noncomputable def pyRoundR (n : ℕ) (x : ℝ) : ℝ :=
  let m : ℝ := (10 : ℝ) ^ n
  let y := x * m
  let f : ℤ := ⌊y⌋
  let k : ℤ :=
    if y - f < 1 / 2 then f
    else if 1 / 2 < y - f then f + 1
    else if f % 2 = 0 then f else f + 1
  (k : ℝ) / m

/-- Consecutive cyclic vertex pairs of a polygon. -/
def cyclePairs (c : Contour) : List ((ℤ × ℤ) × (ℤ × ℤ)) :=
  c.zip (c.rotate 1)

/-- Twice the signed area of the polygon (shoelace sum). -/
def shoelace (c : Contour) : ℤ :=
  (cyclePairs c).foldl
    (fun s pq => s + (pq.1.1 * pq.2.2 - pq.2.1 * pq.1.2)) 0

/-- cv2.contourArea of a point polygon: the absolute value of the signed
area (main.py lines 147 and 160). -/
def contourArea (c : Contour) : ℚ :=
  ((|shoelace c| : ℤ) : ℚ) / 2

/-- The spatial moments of a contour used by main.py. -/
structure Moments where
  m00 : ℚ
  m10 : ℚ
  m01 : ℚ

/-- cv2.moments of a point polygon (main.py line 152): Green-formula
moments with the OpenCV sign normalization. The accumulated shoelace sum
fixes a sign factor (negated for negatively-oriented contours, zero for
degenerate ones), so m00 equals the absolute enclosed area — hence
m00 = contourArea and m00 is never negative, for either contour
orientation — while m10 and m01 are flipped together with it, leaving
the centroid m10 / m00, m01 / m00 orientation-independent. -/
def moments (c : Contour) : Moments :=
  let s := shoelace c
  let sgn : ℚ := if 0 < s then 1 else if s < 0 then -1 else 0
  ⟨sgn * (s : ℚ) / 2,
   sgn * (((cyclePairs c).foldl
      (fun t pq =>
        t + (pq.1.1 + pq.2.1) * (pq.1.1 * pq.2.2 - pq.2.1 * pq.1.2)) 0 : ℤ) : ℚ) / 6,
   sgn * (((cyclePairs c).foldl
      (fun t pq =>
        t + (pq.1.2 + pq.2.2) * (pq.1.1 * pq.2.2 - pq.2.1 * pq.1.2)) 0 : ℤ) : ℚ) / 6⟩

/-- Python max(contours, key=cv2.contourArea): keep the first contour of
maximal area, replacing the running maximum only on a strictly larger
key (main.py line 147). -/
def largestContour (c : Contour) (rest : List Contour) : Contour :=
  rest.foldl (fun acc d => if contourArea acc < contourArea d then d else acc) c

/-- Effective radius from enclosed area: np.sqrt(area / np.pi)
(main.py line 161). -/
noncomputable def effectiveRadius (area : ℚ) : ℝ :=
  Real.sqrt ((area : ℝ) / Real.pi)

/-- A fitted circle, the dict {x, y, radius} of fit_circle_from_mask and
the CircleResult response model (main.py lines 110 and 163): rational
center coordinates, real radius (a square root). -/
structure CircleResult where
  x : ℚ
  y : ℚ
  radius : ℝ

/-- The per-class confidence pair of the response
(main.py line 116). -/
structure ConfidenceResult where
  pupil : ℚ
  iris : ℚ

/-- The assembled detection response (main.py line 121); wall-clock
inference_ms and the model_version constant are not modelled. -/
structure DetectionResponse where
  pupil : Option CircleResult
  iris : Option CircleResult
  confidence : ConfidenceResult
  ratio : Option ℝ

/-- fit_circle_from_mask (main.py lines 130-163), with cv2.findContours
(`fc`) and the center of cv2.minEnclosingCircle (`mec`) as opaque
parameters: binarize, find contours, take the largest by area, reject
fewer than 5 boundary points, centroid from moments when m00 > 0 else
the minimal enclosing circle center, and the effective radius from the
enclosed area. -/
noncomputable def fit_circle_from_mask (fc : Bin → List Contour)
    (mec : Contour → ℚ × ℚ) (mask : Mask) (class_id : Fin 3) :
    Option CircleResult :=
  let binary := binarize mask class_id
  match fc binary with
  | [] => none
  | c :: rest =>
    let largest := largestContour c rest
    if largest.length < 5 then none
    else
      let M := moments largest
      let center :=
        if 0 < M.m00 then (M.m10 / M.m00, M.m01 / M.m00) else mec largest
      some ⟨center.1, center.2, effectiveRadius (contourArea largest)⟩

/-- The contract of cv2.findContours used by the embedding: every
returned contour is nonempty and all its points (x, y) are foreground
pixels of the binarized mask (row y, column x). -/
def FindContoursSpec (fc : Bin → List Contour) : Prop :=
  ∀ b : Bin, ∀ c ∈ fc b, c ≠ [] ∧
    ∀ q ∈ c, ∃ i j : Fin 256, q = ((j : ℤ), (i : ℤ)) ∧ b i j = true

/-- Per-class confidence: the mean of the probability channel of the
class over exactly the pixels the argmax mask assigned to the class,
and 0 when no pixel was assigned (main.py lines 221-222). -/
def classConfidence (pred : ProbMap) (cls : Fin 3) : ℚ :=
  let pixels :=
    Finset.univ.filter (fun p : Fin 256 × Fin 256 => predMask pred p.1 p.2 = cls)
  if 0 < pixels.card then
    (pixels.sum fun p => pred p.1 p.2 cls) / (pixels.card : ℚ)
  else 0

/-- The in-place rescaling of a fitted circle back to original image
coordinates (main.py lines 210-218): x by scale_x, y by scale_y, radius
by the average scale. -/
def rescaleCircle (scale_x scale_y avg_scale : ℚ) (c : CircleResult) :
    CircleResult :=
  ⟨c.x * scale_x, c.y * scale_y, c.radius * (avg_scale : ℝ)⟩

/-- The ratio assembly (main.py lines 224-227): present exactly when
both circles are present and the rescaled iris radius is positive, with
value round(pupil.radius / iris.radius, 4). -/
noncomputable def assembleRatio (pupil iris : Option CircleResult) :
    Option ℝ :=
  match pupil, iris with
  | some p, some i =>
    if 0 < i.radius then some (pyRoundR 4 (p.radius / i.radius)) else none
  | _, _ => none

/-- Modelled from the spec (section 4.5 and section 8, Testable
Properties): the ratio field as the specification words it — present if
and only if both circles are present and iris.radius > 0, and then equal
to round(pupil.radius / iris.radius, 4). Compared against the
source-derived assembleRatio. -/
noncomputable def ratioSpec (pupil iris : Option CircleResult) :
    Option ℝ :=
  match pupil, iris with
  | some p, some i =>
    if 0 < i.radius then some (pyRoundR 4 (p.radius / i.radius)) else none
  | _, _ => none

/-- The pipeline body of run_inference after a successful decode
(main.py lines 184-240): color conversion, resize (opaque), normalize,
model call (opaque), argmax mask, circle fitting for pupil (class 2) and
iris (class 1), rescaling to original coordinates, confidence
aggregation, ratio assembly. -/
noncomputable def run_inference_core (resize : Image → RawTensor)
    (infer : NormTensor → ProbMap) (fc : Bin → List Contour)
    (mec : Contour → ℚ × ℚ) (img : Image) : DetectionResponse :=
  let img_rgb := cvtColor img
  let orig_h : ℚ := img_rgb.height
  let orig_w : ℚ := img_rgb.width
  let resized := resize img_rgb
  let normalized := normalize resized
  let pred := infer normalized
  let pred_mask := predMask pred
  let pupil_circle := fit_circle_from_mask fc mec pred_mask 2
  let iris_circle := fit_circle_from_mask fc mec pred_mask 1
  let scale_x := orig_w / 256
  let scale_y := orig_h / 256
  let avg_scale := (scale_x + scale_y) / 2
  let pupil := pupil_circle.map (rescaleCircle scale_x scale_y avg_scale)
  let iris := iris_circle.map (rescaleCircle scale_x scale_y avg_scale)
  let pupil_conf := classConfidence pred 2
  let iris_conf := classConfidence pred 1
  let ratio := assembleRatio pupil iris
  ⟨pupil, iris, ⟨pyRound 3 pupil_conf, pyRound 3 iris_conf⟩, ratio⟩

/-- The error raised when cv2.imdecode cannot decode the request bytes
(main.py lines 181-182; the DecodeError of the specification). -/
inductive PipelineError where
  | decodeError : PipelineError
deriving DecidableEq

/-- run_inference (main.py lines 166-240) with cv2.imdecode as the
opaque parameter `decode`: a failed decode aborts the request with the
decode error before any later stage runs. -/
noncomputable def run_inference (decode : List ℕ → Option Image)
    (resize : Image → RawTensor) (infer : NormTensor → ProbMap)
    (fc : Bin → List Contour) (mec : Contour → ℚ × ℚ)
    (image_bytes : List ℕ) : Except PipelineError DetectionResponse :=
  match decode image_bytes with
  | none => Except.error PipelineError.decodeError
  | some img => Except.ok (run_inference_core resize infer fc mec img)

/-- A concrete pentagon contour with 5 boundary points, enclosed area 16
and centroid (2, 2); used to exercise the fitting path. -/
def pentagonContour : Contour :=
  [(0, 0), (2, 0), (4, 0), (4, 4), (0, 4)]

/-- A concrete degenerate contour: 5 collinear points, enclosed area 0. -/
def degenerateContour : Contour :=
  [(0, 0), (1, 0), (2, 0), (3, 0), (4, 0)]

/-- The pentagon contour in the reversed, negatively-oriented vertex
order (negative shoelace sum), the orientation cv2.findContours emits
for external contours; enclosed area 16 and centroid (2, 2). -/
def pentagonContourCW : Contour :=
  [(0, 4), (4, 4), (4, 0), (2, 0), (0, 0)]

/-- Unfolding lemma: once findContours has produced a nonempty contour
list, fit_circle_from_mask is the guarded fit of the largest contour. -/
theorem fit_eq_of_contours (fc : Bin → List Contour) (mec : Contour → ℚ × ℚ)
    (mask : Mask) (cls : Fin 3) (c : Contour) (rest : List Contour)
    (hfc : fc (binarize mask cls) = c :: rest) :
    fit_circle_from_mask fc mec mask cls =
      if (largestContour c rest).length < 5 then none
      else
        some ⟨(if 0 < (moments (largestContour c rest)).m00 then
                ((moments (largestContour c rest)).m10 /
                    (moments (largestContour c rest)).m00,
                 (moments (largestContour c rest)).m01 /
                    (moments (largestContour c rest)).m00)
              else mec (largestContour c rest)).1,
              (if 0 < (moments (largestContour c rest)).m00 then
                ((moments (largestContour c rest)).m10 /
                    (moments (largestContour c rest)).m00,
                 (moments (largestContour c rest)).m01 /
                    (moments (largestContour c rest)).m00)
              else mec (largestContour c rest)).2,
              effectiveRadius (contourArea (largestContour c rest))⟩ := by
  simp only [fit_circle_from_mask]
  rw [hfc]

/-- The foldl implementing Python max with key contourArea returns a
member of the list, and its key is maximal. -/
theorem largestContour_spec (c : Contour) (rest : List Contour) :
    largestContour c rest ∈ c :: rest ∧
      ∀ d ∈ c :: rest, contourArea d ≤ contourArea (largestContour c rest) := by
  induction rest generalizing c with
  | nil =>
    refine ⟨List.mem_singleton_self c, ?_⟩
    intro d hd
    rw [List.mem_singleton] at hd
    subst hd
    exact le_refl _
  | cons e rest ih =>
    have hdef : largestContour c (e :: rest) =
        largestContour (if contourArea c < contourArea e then e else c) rest := rfl
    obtain ⟨ihmem, ihle⟩ := ih (if contourArea c < contourArea e then e else c)
    constructor
    · rw [hdef]
      rcases List.mem_cons.mp ihmem with h | h
      · rw [h]
        by_cases hce : contourArea c < contourArea e
        · rw [if_pos hce]
          exact List.mem_cons_of_mem c (List.mem_cons_self e rest)
        · rw [if_neg hce]
          exact List.mem_cons_self c _
      · exact List.mem_cons_of_mem c (List.mem_cons_of_mem e h)
    · intro d hd
      rw [hdef]
      rcases List.mem_cons.mp hd with rfl | hd'
      · calc contourArea d ≤
              contourArea (if contourArea d < contourArea e then e else d) := by
                by_cases h : contourArea d < contourArea e
                · rw [if_pos h]; exact le_of_lt h
                · rw [if_neg h]
            _ ≤ _ := ihle _ (List.mem_cons_self _ _)
      · rcases List.mem_cons.mp hd' with rfl | hd''
        · calc contourArea d ≤
                contourArea (if contourArea c < contourArea d then d else c) := by
                  by_cases h : contourArea c < contourArea d
                  · rw [if_pos h]
                  · rw [if_neg h]; exact le_of_not_lt h
              _ ≤ _ := ihle _ (List.mem_cons_self _ _)
        · exact ihle d (List.mem_cons_of_mem _ hd'')

/-- The source-derived ratio assembly agrees with the ratio field as
worded by the specification. -/
theorem assembleRatio_eq_ratioSpec (p i : Option CircleResult) :
    assembleRatio p i = ratioSpec p i := by
  cases p <;> cases i <;> rfl

/-- Presence analysis of the specification ratio. -/
theorem ratioSpec_isSome_iff (p i : Option CircleResult) :
    (ratioSpec p i).isSome ↔
      p.isSome ∧ ∃ ic, i = some ic ∧ 0 < ic.radius := by
  cases p with
  | none => simp [ratioSpec]
  | some pc =>
    cases i with
    | none => simp [ratioSpec]
    | some ic =>
      by_cases h : 0 < ic.radius
      · simp [ratioSpec, h]
      · simp [ratioSpec, h]

/-- Claim C1: in every run of the pipeline body, the ratio field equals
the specification ratio (present if and only if both the pupil and the
iris circle are present and the reported iris radius is positive, and
then equal to round(pupil.radius / iris.radius, 4) over the rescaled
radii). -/
theorem claim1_ratio_presence_and_value (resize : Image → RawTensor)
    (infer : NormTensor → ProbMap) (fc : Bin → List Contour)
    (mec : Contour → ℚ × ℚ) (img : Image) :
    (run_inference_core resize infer fc mec img).ratio =
      ratioSpec (run_inference_core resize infer fc mec img).pupil
        (run_inference_core resize infer fc mec img).iris ∧
    ((run_inference_core resize infer fc mec img).ratio.isSome ↔
      (run_inference_core resize infer fc mec img).pupil.isSome ∧
      ∃ ic, (run_inference_core resize infer fc mec img).iris = some ic ∧
        0 < ic.radius) := by
  have hr : (run_inference_core resize infer fc mec img).ratio =
      assembleRatio (run_inference_core resize infer fc mec img).pupil
        (run_inference_core resize infer fc mec img).iris := rfl
  constructor
  · rw [hr, assembleRatio_eq_ratioSpec]
  · rw [hr, assembleRatio_eq_ratioSpec]
    exact ratioSpec_isSome_iff _ _

/-- Claim C2: rescaling maps the center of a model-space circle to
(cx * W / 256, cy * H / 256) and the radius to
r * ((W / 256 + H / 256) / 2); an absent circle stays absent; and with
original width and height both 256 the rescaling is the identity. -/
theorem claim2_rescale_roundtrip (W H : ℚ) (c : CircleResult) :
    rescaleCircle (W / 256) (H / 256) ((W / 256 + H / 256) / 2) c =
      ⟨c.x * W / 256, c.y * H / 256,
        c.radius * (((W / 256 + H / 256) / 2 : ℚ) : ℝ)⟩ ∧
    Option.map (rescaleCircle (W / 256) (H / 256) ((W / 256 + H / 256) / 2))
      (none : Option CircleResult) = none ∧
    ∀ co : Option CircleResult,
      Option.map (rescaleCircle ((256 : ℚ) / 256) ((256 : ℚ) / 256)
        (((256 : ℚ) / 256 + (256 : ℚ) / 256) / 2)) co = co := by
  refine ⟨?_, rfl, ?_⟩
  · simp only [rescaleCircle, CircleResult.mk.injEq]
    exact ⟨by ring, by ring, trivial⟩
  · intro co
    cases co with
    | none => rfl
    | some cc =>
      obtain ⟨x, y, r⟩ := cc
      have h : rescaleCircle ((256 : ℚ) / 256) ((256 : ℚ) / 256)
          (((256 : ℚ) / 256 + (256 : ℚ) / 256) / 2) ⟨x, y, r⟩ =
          (⟨x, y, r⟩ : CircleResult) := by
        simp only [rescaleCircle, CircleResult.mk.injEq]
        norm_num
      rw [Option.map_some', h]

/-- Claim C3: whenever fit_circle_from_mask produces a circle, its
model-space radius is sqrt(area / pi) for the enclosed area of the
selected largest contour — an equal-area disk radius, not a boundary
fit. -/
theorem claim3_effective_radius (fc : Bin → List Contour)
    (mec : Contour → ℚ × ℚ) (mask : Mask) (cls : Fin 3) (c : Contour)
    (rest : List Contour) (circ : CircleResult)
    (hfc : fc (binarize mask cls) = c :: rest)
    (hfit : fit_circle_from_mask fc mec mask cls = some circ) :
    circ.radius =
      Real.sqrt ((contourArea (largestContour c rest) : ℝ) / Real.pi) := by
  rw [fit_eq_of_contours fc mec mask cls c rest hfc] at hfit
  by_cases hlen : (largestContour c rest).length < 5
  · rw [if_pos hlen] at hfit
    exact Option.noConfusion hfit
  · rw [if_neg hlen] at hfit
    obtain rfl := (Option.some.inj hfit).symm
    rfl

/-- Concrete run of claim C3 on the pentagon contour. -/
theorem claim3_witness :
    fit_circle_from_mask (fun _ => [pentagonContour]) (fun _ => (0, 0))
        (fun _ _ => 0) 2 =
      some ⟨2, 2, effectiveRadius (contourArea pentagonContour)⟩ ∧
    (⟨2, 2, effectiveRadius (contourArea pentagonContour)⟩ :
        CircleResult).radius =
      Real.sqrt ((contourArea (largestContour pentagonContour []) : ℝ) /
        Real.pi) := by
  have hfit : fit_circle_from_mask (fun _ => [pentagonContour])
      (fun _ => (0, 0)) (fun _ _ => 0) 2 =
      some ⟨2, 2, effectiveRadius (contourArea pentagonContour)⟩ := by
    simp only [fit_circle_from_mask, largestContour, List.foldl]
    norm_num [moments, cyclePairs, pentagonContour, List.rotate, shoelace]
  exact ⟨hfit,
    claim3_effective_radius _ _ _ _ pentagonContour [] _ rfl hfit⟩

/-- Claim C4: when the argmax mask assigns no pixel to a class, the
extraction for that class is absent, the confidence for that class is 0,
and the rounded reported confidence is 0; the functions are total, so no
exception arises on this path. -/
theorem claim4_empty_class_absent (fc : Bin → List Contour)
    (mec : Contour → ℚ × ℚ) (pred : ProbMap) (cls : Fin 3)
    (hfc : FindContoursSpec fc)
    (hzero : ∀ i j : Fin 256, predMask pred i j ≠ cls) :
    fit_circle_from_mask fc mec (predMask pred) cls = none ∧
    classConfidence pred cls = 0 ∧
    pyRound 3 (classConfidence pred cls) = 0 := by
  have hb : ∀ i j : Fin 256, binarize (predMask pred) cls i j = false := by
    intro i j
    simp [binarize, hzero i j]
  have hempty : fc (binarize (predMask pred) cls) = [] := by
    cases h : fc (binarize (predMask pred) cls) with
    | nil => rfl
    | cons c rest =>
      obtain ⟨hne, hpts⟩ := hfc _ c (by rw [h]; exact List.mem_cons_self c rest)
      cases c with
      | nil => exact absurd rfl hne
      | cons q qs =>
        obtain ⟨i, j, _, hbij⟩ := hpts q (List.mem_cons_self q qs)
        rw [hb i j] at hbij
        exact Bool.noConfusion hbij
  have hfit : fit_circle_from_mask fc mec (predMask pred) cls = none := by
    simp only [fit_circle_from_mask]
    rw [hempty]
  have hcard : Finset.univ.filter
      (fun p : Fin 256 × Fin 256 => predMask pred p.1 p.2 = cls) = ∅ := by
    apply Finset.filter_eq_empty_iff.mpr
    intro p _
    exact hzero p.1 p.2
  have hconf : classConfidence pred cls = 0 := by
    simp only [classConfidence]
    rw [hcard]
    simp
  refine ⟨hfit, hconf, ?_⟩
  rw [hconf]
  norm_num [pyRound]

/-- Concrete run of claim C4 on an all-background probability map. -/
theorem claim4_witness :
    fit_circle_from_mask (fun _ => []) (fun _ => (0, 0))
        (predMask (fun _ _ k => if k = 0 then 1 else 0)) 2 = none ∧
    classConfidence (fun _ _ k => if k = 0 then 1 else 0) 2 = 0 ∧
    pyRound 3 (classConfidence (fun _ _ k => if k = 0 then 1 else 0) 2) = 0 := by
  have hfc : FindContoursSpec (fun _ => []) := by
    intro b c hc
    exact absurd hc (List.not_mem_nil c)
  have hzero : ∀ i j : Fin 256,
      predMask (fun _ _ k => if k = 0 then 1 else 0) i j ≠ 2 := by
    intro i j
    simp [predMask, argmax3]
  exact claim4_empty_class_absent _ _ _ 2 hfc hzero

/-- Claim C5: when the byte input cannot be decoded, run_inference
fails with the decode error and the result does not depend on the
inference adapter: the model is never consulted for that request. -/
theorem claim5_decode_failure (decode : List ℕ → Option Image)
    (resize : Image → RawTensor) (fc : Bin → List Contour)
    (mec : Contour → ℚ × ℚ) (image_bytes : List ℕ)
    (hdec : decode image_bytes = none) :
    ∀ infer : NormTensor → ProbMap,
      run_inference decode resize infer fc mec image_bytes =
        Except.error PipelineError.decodeError := by
  intro infer
  simp only [run_inference]
  rw [hdec]

/-- Concrete run of claim C5 on a failing decoder. -/
theorem claim5_witness :
    run_inference (fun _ => none) (fun _ => fun _ _ _ => 0)
        (fun _ => fun _ _ _ => 0) (fun _ => []) (fun _ => (0, 0)) [] =
      Except.error PipelineError.decodeError :=
  claim5_decode_failure (fun _ => none) (fun _ => fun _ _ _ => 0)
    (fun _ => []) (fun _ => (0, 0)) [] rfl (fun _ => fun _ _ _ => 0)

/-- Claim C6: when at least one pixel is argmax-assigned to a class, the
class confidence is the mean of that probability channel over exactly
the assigned pixels (all of them, across all regions), and the response
reports exactly the 3-decimal rounding of that per-class confidence for
pupil and iris. -/
theorem claim6_confidence_mean (pred : ProbMap) (cls : Fin 3)
    (resize : Image → RawTensor) (infer : NormTensor → ProbMap)
    (fc : Bin → List Contour) (mec : Contour → ℚ × ℚ) (img : Image) :
    (0 < (Finset.univ.filter
        (fun p : Fin 256 × Fin 256 => predMask pred p.1 p.2 = cls)).card →
      classConfidence pred cls =
        ((Finset.univ.filter
            (fun p : Fin 256 × Fin 256 => predMask pred p.1 p.2 = cls)).sum
          fun p => pred p.1 p.2 cls) /
        (((Finset.univ.filter
            (fun p : Fin 256 × Fin 256 => predMask pred p.1 p.2 = cls)).card : ℚ))) ∧
    (run_inference_core resize infer fc mec img).confidence =
      ⟨pyRound 3 (classConfidence (infer (normalize (resize (cvtColor img)))) 2),
       pyRound 3 (classConfidence (infer (normalize (resize (cvtColor img)))) 1)⟩ := by
  constructor
  · intro h
    simp only [classConfidence]
    rw [if_pos h]
  · rfl

set_option maxRecDepth 100000 in
/-- Concrete run of claim C6 on a probability map that assigns every
pixel to the pupil class. -/
theorem claim6_witness :
    classConfidence (fun _ _ k => if k = 2 then 1 else 0) 2 =
      ((Finset.univ.filter
          (fun p : Fin 256 × Fin 256 =>
            predMask (fun _ _ k => if k = 2 then 1 else 0) p.1 p.2 = 2)).sum
        fun p => (fun _ _ k => if k = 2 then (1 : ℚ) else 0) p.1 p.2 2) /
      (((Finset.univ.filter
          (fun p : Fin 256 × Fin 256 =>
            predMask (fun _ _ k => if k = 2 then 1 else 0) p.1 p.2 = 2)).card : ℚ)) := by
  have hmem : ((⟨0, by norm_num⟩, ⟨0, by norm_num⟩) : Fin 256 × Fin 256) ∈
      Finset.univ.filter
        (fun p : Fin 256 × Fin 256 =>
          predMask (fun _ _ k => if k = 2 then 1 else 0) p.1 p.2 = 2) := by
    refine Finset.mem_filter.mpr ⟨Finset.mem_univ _, ?_⟩
    norm_num [predMask, argmax3]
    decide
  exact (claim6_confidence_mean (fun _ _ k => if k = 2 then 1 else 0) 2
    (fun _ => fun _ _ _ => 0) (fun _ => fun _ _ _ => 0) (fun _ => [])
    (fun _ => (0, 0)) ⟨0, 0, fun _ _ => (0, 0, 0)⟩).1
    (Finset.card_pos.mpr ⟨_, hmem⟩)

/-- Claim C7: with at least one foreground contour, the selected contour
is a member of the contour list with maximal enclosed area (the first
such, as Python max keeps the earliest maximum), and when it has fewer
than 5 boundary points the extraction result is absent. -/
theorem claim7_largest_selection (c : Contour) (rest : List Contour) :
    (largestContour c rest ∈ c :: rest ∧
      ∀ d ∈ c :: rest, contourArea d ≤ contourArea (largestContour c rest)) ∧
    ∀ (fc : Bin → List Contour) (mec : Contour → ℚ × ℚ) (mask : Mask)
      (cls : Fin 3), fc (binarize mask cls) = c :: rest →
      (largestContour c rest).length < 5 →
      fit_circle_from_mask fc mec mask cls = none := by
  refine ⟨largestContour_spec c rest, ?_⟩
  intro fc mec mask cls hfc hlen
  rw [fit_eq_of_contours fc mec mask cls c rest hfc, if_pos hlen]

/-- Concrete run of claim C7: a 4-point square beats a 2-point segment
on area and is then rejected for having fewer than 5 points. -/
theorem claim7_witness :
    largestContour [((0 : ℤ), (0 : ℤ)), (1, 0)]
        [[(0, 0), (3, 0), (3, 3), (0, 3)]] ∈
      [((0 : ℤ), (0 : ℤ)), (1, 0)] :: [[(0, 0), (3, 0), (3, 3), (0, 3)]] ∧
    contourArea [((0 : ℤ), (0 : ℤ)), (1, 0)] ≤
      contourArea (largestContour [((0 : ℤ), (0 : ℤ)), (1, 0)]
        [[(0, 0), (3, 0), (3, 3), (0, 3)]]) ∧
    fit_circle_from_mask
        (fun _ => [[((0 : ℤ), (0 : ℤ)), (1, 0)], [(0, 0), (3, 0), (3, 3), (0, 3)]])
        (fun _ => (0, 0)) (fun _ _ => 0) 2 = none := by
  have hlen : (largestContour [((0 : ℤ), (0 : ℤ)), (1, 0)]
      [[(0, 0), (3, 0), (3, 3), (0, 3)]]).length < 5 := by
    norm_num [largestContour, contourArea, shoelace, cyclePairs, List.rotate]
  refine ⟨(claim7_largest_selection _ _).1.1,
    (claim7_largest_selection _ _).1.2 _ (List.mem_cons_self _ _),
    (claim7_largest_selection _ _).2 _ _ _ 2 rfl hlen⟩

/-- The enclosed area of a contour is never negative. -/
theorem contourArea_nonneg (c : Contour) : 0 ≤ contourArea c := by
  rw [contourArea]
  have h : (0 : ℚ) ≤ ((|shoelace c| : ℤ) : ℚ) := by
    exact_mod_cast abs_nonneg (shoelace c)
  linarith

/-- With the OpenCV sign normalization, the area moment m00 equals the
enclosed contour area for either contour orientation. -/
theorem moments_m00_eq_contourArea (c : Contour) :
    (moments c).m00 = contourArea c := by
  simp only [moments, contourArea]
  rcases lt_trichotomy (shoelace c) 0 with h | h | h
  · rw [if_neg (not_lt.mpr h.le), if_pos h, abs_of_neg h]
    push_cast
    ring
  · rw [h]
    norm_num
  · rw [if_pos h, abs_of_pos h]
    ring

/-- Claim C8: with a selected contour of at least 5 points, the fitted
center is the moment centroid (m10 / m00, m01 / m00) when m00 > 0, and
falls back to the center of the minimal enclosing circle when the area
moment m00 is 0. The sign-normalized m00 is never negative (it equals
the enclosed area for either contour orientation), so these two cases
are exhaustive. -/
theorem claim8_centroid_fallback (fc : Bin → List Contour)
    (mec : Contour → ℚ × ℚ) (mask : Mask) (cls : Fin 3) (c : Contour)
    (rest : List Contour)
    (hfc : fc (binarize mask cls) = c :: rest)
    (hlen : ¬ (largestContour c rest).length < 5) :
    0 ≤ (moments (largestContour c rest)).m00 ∧
    (0 < (moments (largestContour c rest)).m00 →
      fit_circle_from_mask fc mec mask cls =
        some ⟨(moments (largestContour c rest)).m10 /
                (moments (largestContour c rest)).m00,
              (moments (largestContour c rest)).m01 /
                (moments (largestContour c rest)).m00,
              effectiveRadius (contourArea (largestContour c rest))⟩) ∧
    ((moments (largestContour c rest)).m00 = 0 →
      fit_circle_from_mask fc mec mask cls =
        some ⟨(mec (largestContour c rest)).1, (mec (largestContour c rest)).2,
              effectiveRadius (contourArea (largestContour c rest))⟩) := by
  refine ⟨?_, ?_, ?_⟩
  · rw [moments_m00_eq_contourArea]
    exact contourArea_nonneg _
  · intro hm
    rw [fit_eq_of_contours fc mec mask cls c rest hfc, if_neg hlen, if_pos hm]
  · intro hm
    rw [fit_eq_of_contours fc mec mask cls c rest hfc, if_neg hlen,
      if_neg (by rw [hm]; exact lt_irrefl 0)]

/-- Concrete runs of claim C8: the negatively-oriented pentagon — the
orientation cv2.findContours actually emits — has positive normalized
area moment and gets the moment centroid; the degenerate contour has
zero area moment and falls back to the minimal enclosing circle center
(5, 7). -/
theorem claim8_witness :
    fit_circle_from_mask (fun _ => [pentagonContourCW]) (fun _ => (5, 7))
        (fun _ _ => 0) 2 =
      some ⟨(moments (largestContour pentagonContourCW [])).m10 /
              (moments (largestContour pentagonContourCW [])).m00,
            (moments (largestContour pentagonContourCW [])).m01 /
              (moments (largestContour pentagonContourCW [])).m00,
            effectiveRadius (contourArea (largestContour pentagonContourCW []))⟩ ∧
    fit_circle_from_mask (fun _ => [degenerateContour]) (fun _ => (5, 7))
        (fun _ _ => 0) 2 =
      some ⟨5, 7,
            effectiveRadius (contourArea (largestContour degenerateContour []))⟩ := by
  have hm00p : 0 < (moments (largestContour pentagonContourCW [])).m00 := by
    norm_num [largestContour, moments, cyclePairs, pentagonContourCW,
      List.rotate, shoelace]
  have hm00z : (moments (largestContour degenerateContour [])).m00 = 0 := by
    norm_num [largestContour, moments, cyclePairs, degenerateContour,
      List.rotate, shoelace]
  exact ⟨(claim8_centroid_fallback _ _ _ 2 pentagonContourCW [] rfl
      (by norm_num [largestContour, pentagonContourCW])).2.1 hm00p,
    (claim8_centroid_fallback _ _ _ 2 degenerateContour [] rfl
      (by norm_num [largestContour, degenerateContour])).2.2 hm00z⟩

/-- Claim C9: the effective radius is monotone in the enclosed area,
and doubling the area multiplies the radius by sqrt 2. -/
theorem claim9_radius_monotone (a b : ℚ) (hab : a ≤ b) :
    effectiveRadius (2 * a) = Real.sqrt 2 * effectiveRadius a ∧
    effectiveRadius a ≤ effectiveRadius b := by
  constructor
  · simp only [effectiveRadius]
    push_cast
    rw [mul_div_assoc, Real.sqrt_mul (by norm_num : (0 : ℝ) ≤ 2)]
  · simp only [effectiveRadius]
    apply Real.sqrt_le_sqrt
    have hab' : (a : ℝ) ≤ (b : ℝ) := by exact_mod_cast hab
    exact div_le_div_of_nonneg_right hab' Real.pi_pos.le

/-- Concrete run of claim C9 at areas 1 and 2. -/
theorem claim9_witness :
    effectiveRadius (2 * 1) = Real.sqrt 2 * effectiveRadius 1 ∧
    effectiveRadius 1 ≤ effectiveRadius 2 :=
  claim9_radius_monotone 1 2 (by norm_num)

/-- Claim C10: every fitted circle has a nonnegative radius; radius
exactly 0 is attainable, via a largest contour with 5 boundary points
and zero enclosed area, and is returned as a present circle; and a
present pupil circle of radius 0 next to a present iris circle of
positive radius yields a present ratio equal to 0. -/
theorem claim10_zero_radius :
    (∀ (fc : Bin → List Contour) (mec : Contour → ℚ × ℚ) (mask : Mask)
      (cls : Fin 3) (circ : CircleResult),
      fit_circle_from_mask fc mec mask cls = some circ → 0 ≤ circ.radius) ∧
    (fit_circle_from_mask (fun _ => [degenerateContour]) (fun _ => (0, 0))
        (fun _ _ => 0) 2 =
      some ⟨0, 0, effectiveRadius (contourArea degenerateContour)⟩ ∧
      effectiveRadius (contourArea degenerateContour) = 0) ∧
    (∀ p i : CircleResult, p.radius = 0 → 0 < i.radius →
      assembleRatio (some p) (some i) = some 0) := by
  refine ⟨?_, ⟨?_, ?_⟩, ?_⟩
  · intro fc mec mask cls circ hfit
    cases h : fc (binarize mask cls) with
    | nil =>
      rw [fit_circle_from_mask] at hfit
      rw [h] at hfit
      exact Option.noConfusion hfit
    | cons c rest =>
      rw [fit_eq_of_contours fc mec mask cls c rest h] at hfit
      by_cases hlen : (largestContour c rest).length < 5
      · rw [if_pos hlen] at hfit
        exact Option.noConfusion hfit
      · rw [if_neg hlen] at hfit
        obtain rfl := (Option.some.inj hfit).symm
        exact Real.sqrt_nonneg _
  · simp only [fit_circle_from_mask, largestContour, List.foldl]
    norm_num [moments, cyclePairs, degenerateContour, List.rotate, shoelace]
  · have h0 : contourArea degenerateContour = 0 := by
      norm_num [contourArea, shoelace, cyclePairs, degenerateContour,
        List.rotate]
    rw [effectiveRadius, h0]
    norm_num
  · intro p i hp hi
    have hr0 : pyRoundR 4 0 = 0 := by
      simp only [pyRoundR]
      norm_num
    show (if 0 < i.radius then some (pyRoundR 4 (p.radius / i.radius))
          else none) = some 0
    rw [if_pos hi, hp, zero_div, hr0]

/-- Concrete runs of claim C10: nonnegativity at the pentagon fit, and
the zero-radius ratio at explicit circles. -/
theorem claim10_witness :
    (fit_circle_from_mask (fun _ => [pentagonContour]) (fun _ => (0, 0))
        (fun _ _ => 0) 2 =
      some ⟨2, 2, effectiveRadius (contourArea pentagonContour)⟩ ∧
      0 ≤ (⟨2, 2, effectiveRadius (contourArea pentagonContour)⟩ :
        CircleResult).radius) ∧
    assembleRatio (some ⟨0, 0, (0 : ℝ)⟩) (some ⟨0, 0, (1 : ℝ)⟩) = some 0 := by
  have hfit : fit_circle_from_mask (fun _ => [pentagonContour])
      (fun _ => (0, 0)) (fun _ _ => 0) 2 =
      some ⟨2, 2, effectiveRadius (contourArea pentagonContour)⟩ := by
    simp only [fit_circle_from_mask, largestContour, List.foldl]
    norm_num [moments, cyclePairs, pentagonContour, List.rotate, shoelace]
  exact ⟨⟨hfit, claim10_zero_radius.1 _ _ _ _ _ hfit⟩,
    claim10_zero_radius.2.2 ⟨0, 0, (0 : ℝ)⟩ ⟨0, 0, (1 : ℝ)⟩ rfl
      one_pos⟩

end PupilSeg
